import Mathlib

/-!
Verification development for the Veritas Scribe transcription tool.

The definitions below are a shallow embedding of the TypeScript sources:
the transcript search and highlight computation of
components/TranscriptionDisplay.tsx, the file validation of the media
uploader, the application level state handlers of App.tsx, and the chat
panel of components/AssistantPanel.tsx.  Strings handled character by
character are modelled as lists of characters; the JavaScript regular
expression built from the escaped search query matches the query as a
literal substring, case insensitively, so it is embedded as a literal
case-insensitive substring scan.
-/

namespace VeritasScribe

/-- Character list model of a JavaScript string. -/
abbrev Str := List Char

/-- Case-insensitive equality of two strings, the embedding of
comparing the results of toLowerCase on both sides. -/
def lowerEq (a b : Str) : Bool :=
  decide (a.map Char.toLower = b.map Char.toLower)

/-- There is a case-insensitive occurrence of q at position i of s. -/
def ciAt (q s : Str) (i : Nat) : Bool :=
  lowerEq ((s.drop i).take q.length) q

/-- Some position of s carries a case-insensitive occurrence of q. -/
def hasOccCI (q s : Str) : Bool :=
  (List.range (s.length + 1)).any (fun i => ciAt q s i)

/-- Number of positions of s carrying a case-insensitive occurrence of q,
counting overlapping occurrences as distinct. -/
def countOccCI (q s : Str) : Nat :=
  ((List.range (s.length + 1)).filter (fun i => ciAt q s i)).length

/-- Position of the first case-insensitive occurrence of q in s, if any:
the position at which the global case-insensitive regular expression
produced from the escaped query finds its next match. -/
def findCI (q s : Str) : Option Nat :=
  if lowerEq (s.take q.length) q then some 0
  else
    match s with
    | [] => none
    | _ :: rest => Option.map (fun i => i + 1) (findCI q rest)

/-- Fuelled worker for splitKeep; the fuel only serves termination and
is always supplied one larger than the length of s. -/
def splitKeepAux (fuel : Nat) (q s : Str) : List Str :=
  match fuel with
  | 0 => [s]
  | fuel + 1 =>
    match findCI q s with
    | none => [s]
    | some i =>
      s.take i :: ((s.drop i).take q.length) ::
        splitKeepAux fuel q ((s.drop i).drop q.length)

/-- Embedding of paragraph.split(regex) where regex is the global
case-insensitive literal pattern built from the escaped query: the list
alternates the text between matches with the captured matches. -/
def splitKeep (q s : Str) : List Str :=
  if q.isEmpty then [s] else splitKeepAux (s.length + 1) q s

/-- One rendered fragment of a paragraph, as produced by the useMemo of
TranscriptionDisplay: its text, whether it is a highlighted match, and
its match index (minus one for fragments that are not matches). -/
structure Part where
  text : Str
  isMatch : Bool
  index : Int
deriving DecidableEq, Repr

/-- One processed paragraph: the original paragraph text and its parts. -/
structure Para where
  text : Str
  parts : List Part
deriving DecidableEq, Repr

/-- Embedding of the map over the split parts that assigns match flags
and running match indices; the accumulator c carries the mutable
matchCount of the closure. -/
def markParts (q : Str) (parts : List Str) (c : Nat) : List Part × Nat :=
  match parts with
  | [] => ([], c)
  | p :: rest =>
    if lowerEq p q then
      let r := markParts q rest (c + 1)
      (⟨p, true, Int.ofNat c⟩ :: r.1, r.2)
    else
      let r := markParts q rest c
      (⟨p, false, -1⟩ :: r.1, r.2)

/-- Embedding of String.prototype.trim. -/
def trimStr (s : Str) : Str :=
  ((s.dropWhile Char.isWhitespace).reverse.dropWhile Char.isWhitespace).reverse

/-- Embedding of text.split with the newline separator. -/
def splitNL : Str → List Str
  | [] => [[]]
  | c :: rest =>
    let r := splitNL rest
    if c = '\n' then [] :: r
    else
      match r with
      | [] => [[c]]
      | h :: t => (c :: h) :: t

/-- Joining paragraphs back with newline separators. -/
def joinNL : List Str → Str
  | [] => []
  | [p] => p
  | p :: rest => p ++ '\n' :: joinNL rest

/-- Processing of a single paragraph inside the useMemo: paragraphs that
trim to nothing are returned as a single unhighlighted part, the rest
are split on the query and marked. -/
def processParagraph (q p : Str) (c : Nat) : Para × Nat :=
  if (trimStr p).isEmpty then (⟨p, [⟨p, false, -1⟩]⟩, c)
  else
    let r := markParts q (splitKeep q p) c
    (⟨p, r.1⟩, r.2)

/-- Processing of the whole paragraph list, threading the match count. -/
def processAll (q : Str) (ps : List Str) (c : Nat) : List Para × Nat :=
  match ps with
  | [] => ([], c)
  | p :: rest =>
    let hd := processParagraph q p c
    let tl := processAll q rest hd.2
    (hd.1 :: tl.1, tl.2)

/-- The useMemo body of TranscriptionDisplay: for an empty query every
paragraph is one unhighlighted part with zero matches, otherwise the
paragraphs are split, marked and counted. -/
def processedText (text q : Str) : List Para × Nat :=
  if q.isEmpty then
    ((splitNL text).map (fun p => ⟨p, [⟨p, false, -1⟩]⟩), 0)
  else processAll q (splitNL text) 0

/-- The processedParagraphs component of the useMemo value. -/
def processedParagraphs (text q : Str) : List Para :=
  (processedText text q).1

/-- The totalMatches component of the useMemo value. -/
def totalMatches (text q : Str) : Nat :=
  (processedText text q).2

/-- Match indices of the parts of one paragraph, in scan order. -/
def paraIndices (parts : List Part) : List Int :=
  (parts.filter (fun pt => pt.isMatch)).map (fun pt => pt.index)

/-- Match indices over all processed paragraphs, in scan order. -/
def allIndices (paras : List Para) : List Int :=
  (paras.map (fun pa => paraIndices pa.parts)).flatten

/-- Number of parts of one paragraph marked as matches. -/
def countMarked (parts : List Part) : Nat :=
  parts.countP (fun pt => pt.isMatch)

/-- Number of marked parts over all processed paragraphs. -/
def allMarked (paras : List Para) : Nat :=
  (paras.map (fun pa => countMarked pa.parts)).sum

/-- Number of scan matches contributed by one paragraph: zero for a
paragraph that trims to nothing, otherwise the number of split parts
case-insensitively equal to the query. -/
def paraCount (q p : Str) : Nat :=
  if (trimStr p).isEmpty then 0
  else (splitKeep q p).countP (fun x => lowerEq x q)

/-- Embedding of handleNextMatch of TranscriptionDisplay. -/
def handleNextMatch (totalMatches i : Int) : Int :=
  (i + 1) % totalMatches

/-- Embedding of handlePrevMatch of TranscriptionDisplay. -/
def handlePrevMatch (totalMatches i : Int) : Int :=
  (i - 1 + totalMatches) % totalMatches

/-- Embedding of String.prototype.startsWith over the character list
representation of the string. -/
def strStartsWith (s p : String) : Bool :=
  p.data.isPrefixOf s.data

/-- Embedding of String.prototype.trim over the character list
representation of the string. -/
def strTrim (s : String) : String :=
  String.mk (trimStr s.data)

/-- The TranscriptionStatus enumeration of types.ts. -/
inductive TranscriptionStatus
  | IDLE
  | PROCESSING_FILE
  | TRANSCRIBING
  | COMPLETED
  | ERROR
deriving DecidableEq, Repr

/-- The coarse media type tag of types.ts. -/
inductive MediaType
  | audio
  | video
deriving DecidableEq, Repr

/-- The observable attributes of a browser File object: name, MIME type
string, and size in bytes. -/
structure FileDesc where
  name : String
  type : String
  size : Nat
deriving DecidableEq, Repr

/-- The MediaFile record of types.ts. -/
structure MediaFile where
  file : FileDesc
  previewUrl : String
  type : MediaType
deriving DecidableEq, Repr

/-- Embedding of MediaUploader.validateAndProcessFile: the error case is
the visible error message set without invoking onFileSelect, the ok case
is the MediaFile passed to onFileSelect.  The preview URL produced by
URL.createObjectURL is supplied as a parameter. -/
def validateAndProcessFile (file : FileDesc) (previewUrl : String) :
    Except String MediaFile :=
  let isAudio := strStartsWith file.type ("audio/")
  let isVideo := strStartsWith file.type ("video/")
  if !isAudio && !isVideo then
    Except.error ("Please upload a valid audio or video file.")
  else if file.size > 50 * 1024 * 1024 then
    Except.error
      ("File is too large for this demo (limit 50MB). Please compress or trim the file.")
  else
    Except.ok ⟨file, previewUrl, if isAudio then MediaType.audio else MediaType.video⟩

/-- The rejection condition stated by the claim: a MIME type that is
neither audio nor video, or a size above fifty binary megabytes. -/
def rejectsFile (f : FileDesc) : Bool :=
  (!(strStartsWith f.type ("audio/")) && !(strStartsWith f.type ("video/")))
    || f.size > 50 * 1024 * 1024

/-- A chat message role of AssistantPanel. -/
inductive Role
  | user
  | model
deriving DecidableEq, Repr

/-- A chat message of AssistantPanel. -/
structure ChatMessage where
  role : Role
  text : String
deriving DecidableEq, Repr

/-- The local state of the AssistantPanel component.  The chat session
object is modelled by the transcription it was created from; the
outstanding field counts remote chat calls currently in flight and
models the requests awaited between the start and the finally clause of
handleSend. -/
structure ChatState where
  messages : List ChatMessage
  input : String
  isLoading : Bool
  chatSession : Option String
  outstanding : Nat
deriving DecidableEq, Repr

/-- The useState initial values of AssistantPanel. -/
def initialChatState : ChatState := ⟨[], "", false, none, 0⟩

/-- The greeting appended when the chat session is created. -/
def greetingText : String :=
  "I\x27ve analyzed the transcript. I can help you summarize the content, find specific quotes, or answer questions about what was discussed."

/-- The message shown when creating the chat session throws. -/
def initErrorText : String :=
  "Error initializing AI assistant. Please check your API key."

/-- The inline message appended when the remote chat call throws. -/
def chatErrorText : String :=
  "Sorry, I encountered an error. Please try again."

/-- The fallback used when the remote chat call returns empty text. -/
def emptyResponseText : String :=
  "I couldn\x27t generate a response."

/-- Embedding of the chat initialization effect of AssistantPanel:
with a transcription present it creates the session and replaces the
message list with the greeting, or with the initialization error message
when createChatSession throws for a missing API key. -/
def chatInit (apiKeyPresent : Bool) (transcription : String) (st : ChatState) :
    ChatState :=
  if transcription = "" then st
  else if apiKeyPresent then
    { st with chatSession := some transcription,
              messages := [⟨Role.model, greetingText⟩] }
  else
    { st with messages := [⟨Role.model, initErrorText⟩] }

/-- Embedding of the synchronous head of AssistantPanel.handleSend up to
the await: the guard returns the state untouched, otherwise the user
message is appended, the input cleared, the loading flag raised and one
remote call issued. -/
def handleSendStart (text : String) (st : ChatState) : ChatState :=
  if strTrim text = "" || st.chatSession.isNone || st.isLoading then st
  else
    { st with messages := st.messages ++ [⟨Role.user, text⟩],
              input := "",
              isLoading := true,
              outstanding := st.outstanding + 1 }

/-- Embedding of the continuation of AssistantPanel.handleSend after the
awaited remote call settles: the model reply or the inline error message
is appended and the finally clause clears the loading flag.  A
completion can only arrive while a call is in flight, which the loading
flag records. -/
def handleSendFinish (outcome : Except String String) (st : ChatState) :
    ChatState :=
  if st.isLoading then
    match outcome with
    | Except.ok r =>
      let reply : ChatMessage := ⟨Role.model, if r = "" then emptyResponseText else r⟩
      { st with messages := st.messages ++ [reply],
                isLoading := false,
                outstanding := st.outstanding - 1 }
    | Except.error _ =>
      { st with messages := st.messages ++ [⟨Role.model, chatErrorText⟩],
                isLoading := false,
                outstanding := st.outstanding - 1 }
  else st

/-- The events that drive the AssistantPanel state. -/
inductive ChatEvent
  | init (apiKeyPresent : Bool) (transcription : String)
  | send (text : String)
  | finish (outcome : Except String String)
  | setInput (text : String)

/-- One step of the AssistantPanel state machine. -/
def chatStep (st : ChatState) (e : ChatEvent) : ChatState :=
  match e with
  | ChatEvent.init k t => chatInit k t st
  | ChatEvent.send t => handleSendStart t st
  | ChatEvent.finish o => handleSendFinish o st
  | ChatEvent.setInput t => { st with input := t }

/-- The single-outstanding-call invariant: the number of in-flight
remote chat calls is one exactly while the loading flag is raised. -/
def chatInv (st : ChatState) : Bool :=
  st.outstanding == (if st.isLoading then 1 else 0)

/-- The tab selection of App.tsx. -/
inductive Tab
  | transcript
  | assistant
deriving DecidableEq, Repr

/-- The useState values of the App component, together with the local
state of the AssistantPanel while it is mounted. -/
structure AppState where
  mediaFile : Option MediaFile
  status : TranscriptionStatus
  transcription : String
  error : Option String
  activeTab : Tab
  chat : Option ChatState
deriving DecidableEq, Repr

/-- One setter call of the App component. -/
inductive SetAction
  | setMediaFile (m : Option MediaFile)
  | setStatus (st : TranscriptionStatus)
  | setTranscription (t : String)
  | setError (e : Option String)
  | setActiveTab (t : Tab)
deriving Repr

/-- Effect of one setter call on the App state. -/
def applyAction (s : AppState) (a : SetAction) : AppState :=
  match a with
  | SetAction.setMediaFile m => { s with mediaFile := m }
  | SetAction.setStatus st => { s with status := st }
  | SetAction.setTranscription t => { s with transcription := t }
  | SetAction.setError e => { s with error := e }
  | SetAction.setActiveTab t => { s with activeTab := t }

/-- Running a list of setter calls in order. -/
def runActions (s : AppState) (l : List SetAction) : AppState :=
  l.foldl applyAction s

/-- The setter calls of App.handleFileSelect, in source order. -/
def handleFileSelectActions (f : MediaFile) : List SetAction :=
  [SetAction.setMediaFile (some f),
   SetAction.setError none,
   SetAction.setTranscription "",
   SetAction.setStatus TranscriptionStatus.IDLE,
   SetAction.setActiveTab Tab.transcript]

/-- The fallback transcription error text of App.handleTranscribe. -/
def defaultErrorText : String := "An unexpected error occurred."

/-- The setter calls of App.handleTranscribe, in source order: the
synchronous prefix before the awaited transcribeMedia call, then either
the success continuation or the catch branch, according to the outcome
of the remote call.  The error payload carries err.message, with the
fallback text substituted when it is empty. -/
def handleTranscribeActions (outcome : Except String String) : List SetAction :=
  [SetAction.setStatus TranscriptionStatus.PROCESSING_FILE,
   SetAction.setError none,
   SetAction.setStatus TranscriptionStatus.TRANSCRIBING] ++
  match outcome with
  | Except.ok r =>
    [SetAction.setTranscription r,
     SetAction.setStatus TranscriptionStatus.COMPLETED]
  | Except.error m =>
    [SetAction.setError (some (if m = "" then defaultErrorText else m)),
     SetAction.setStatus TranscriptionStatus.ERROR]

/-- The setter calls of App.handleReset, in source order. -/
def handleResetActions : List SetAction :=
  [SetAction.setMediaFile none,
   SetAction.setTranscription "",
   SetAction.setStatus TranscriptionStatus.IDLE,
   SetAction.setError none,
   SetAction.setActiveTab Tab.transcript]

/-- The sequence of status values assigned by a list of setter calls. -/
def statusWrites (l : List SetAction) : List TranscriptionStatus :=
  l.filterMap (fun a =>
    match a with
    | SetAction.setStatus st => some st
    | _ => none)

/-- The sequence of transcription values assigned by a list of setter
calls. -/
def transcriptionWrites (l : List SetAction) : List String :=
  l.filterMap (fun a =>
    match a with
    | SetAction.setTranscription t => some t
    | _ => none)

/-- The events that drive the App state. -/
inductive AppEvent
  | fileSelect (f : MediaFile)
  | transcribe (outcome : Except String String)
  | reset
  | setTab (t : Tab)
  | chat (e : ChatEvent)

/-- Discriminator for the reset event. -/
def AppEvent.isReset : AppEvent → Bool
  | AppEvent.reset => true
  | _ => false

/-- Discriminator for the file selection event. -/
def AppEvent.isFileSelect : AppEvent → Bool
  | AppEvent.fileSelect _ => true
  | _ => false

/-- Render reconciliation for the AssistantPanel: it is mounted exactly
while a media file is loaded and the assistant tab is active; mounting
installs the initial component state and unmounting discards it. -/
def mountChat (s : AppState) : AppState :=
  if s.mediaFile.isSome ∧ s.activeTab = Tab.assistant then
    match s.chat with
    | some _ => s
    | none => { s with chat := some initialChatState }
  else { s with chat := none }

/-- One step of the App state machine.  A transcribe event fires only
when the Start Transcription button is rendered, which App.tsx does
exactly in the IDLE and ERROR states with a media file loaded; chat
events step the mounted AssistantPanel state. -/
def appStep (s : AppState) (e : AppEvent) : AppState :=
  match e with
  | AppEvent.fileSelect f => mountChat (runActions s (handleFileSelectActions f))
  | AppEvent.transcribe o =>
    if s.mediaFile.isSome ∧
        (s.status = TranscriptionStatus.IDLE ∨ s.status = TranscriptionStatus.ERROR) then
      mountChat (runActions s (handleTranscribeActions o))
    else s
  | AppEvent.reset => mountChat (runActions s handleResetActions)
  | AppEvent.setTab t => mountChat (runActions s [SetAction.setActiveTab t])
  | AppEvent.chat ce =>
    match s.chat with
    | none => s
    | some cs => { s with chat := some (chatStep cs ce) }

/-- Selecting a file through the uploader: a rejected file leaves the
application state untouched, an accepted one reaches App.handleFileSelect. -/
def uploaderStep (s : AppState) (f : FileDesc) (u : String) : AppState :=
  match validateAndProcessFile f u with
  | Except.error _ => s
  | Except.ok m => appStep s (AppEvent.fileSelect m)

/-- A sample media file used by witness statements. -/
def sampleMedia : MediaFile :=
  ⟨⟨("interview.mp3"), ("audio/mpeg"), 1000⟩, ("blob:demo"), MediaType.audio⟩

/-- A sample freshly loaded session used by witness statements. -/
def sampleIdleState : AppState :=
  ⟨some sampleMedia, TranscriptionStatus.IDLE, "", none, Tab.transcript, none⟩

/-- A sample completed session used by witness statements. -/
def sampleCompletedState : AppState :=
  ⟨some sampleMedia, TranscriptionStatus.COMPLETED, ("Hello world"), none,
    Tab.transcript, none⟩

/-- A sample initialized chat panel state used by witness statements. -/
def sampleChatState : ChatState :=
  ⟨[⟨Role.model, greetingText⟩], "", false, some ("Hello world"), 0⟩

/-- Mount reconciliation never changes the transcription field. -/
theorem mountChat_transcription (s : AppState) :
    (mountChat s).transcription = s.transcription := by
  unfold mountChat
  split
  · split <;> rfl
  · rfl

/-- Claim C2: for every match count n above zero and every current match
index i in the interval from zero to n exclusive, next-match navigation
sets the index to (i + 1) mod n and previous-match navigation to
(i - 1 + n) mod n, both stay inside the interval, and next followed by
previous returns to i. -/
theorem match_navigation_cycles (n i : Int) (hn : 0 < n) (h0 : 0 ≤ i) (hi : i < n) :
    handleNextMatch n i = (i + 1) % n ∧
    handlePrevMatch n i = (i - 1 + n) % n ∧
    0 ≤ handleNextMatch n i ∧ handleNextMatch n i < n ∧
    0 ≤ handlePrevMatch n i ∧ handlePrevMatch n i < n ∧
    handlePrevMatch n (handleNextMatch n i) = i := by
  refine ⟨rfl, rfl, Int.emod_nonneg _ (by omega), Int.emod_lt_of_pos _ hn,
    Int.emod_nonneg _ (by omega), Int.emod_lt_of_pos _ hn, ?_⟩
  unfold handleNextMatch handlePrevMatch
  rcases lt_or_eq_of_le (by omega : i + 1 ≤ n) with h | h
  · rw [Int.emod_eq_of_lt (by omega) h]
    have hrw : i + 1 - 1 + n = i + n * 1 := by ring
    rw [hrw, Int.add_mul_emod_self_left, Int.emod_eq_of_lt h0 hi]
  · rw [h, Int.emod_self]
    have hrw : (0 : Int) - 1 + n = i := by omega
    rw [hrw, Int.emod_eq_of_lt h0 hi]

/-- Witness for C2 at n = 3 and i = 1. -/
theorem match_navigation_cycles_witness :
    handleNextMatch 3 1 = (1 + 1) % 3 ∧
    handlePrevMatch 3 1 = (1 - 1 + 3) % 3 ∧
    0 ≤ handleNextMatch 3 1 ∧ handleNextMatch 3 1 < 3 ∧
    0 ≤ handlePrevMatch 3 1 ∧ handlePrevMatch 3 1 < 3 ∧
    handlePrevMatch 3 (handleNextMatch 3 1) = 1 :=
  match_navigation_cycles 3 1 (by decide) (by decide) (by decide)

/-- Claim C5: a selected file whose MIME type is neither audio nor video
or whose size exceeds fifty binary megabytes is rejected with a visible
nonempty error message and the application state is unchanged; every
other file reaches onFileSelect with the audio tag exactly when its MIME
type starts with the audio prefix and the video tag otherwise. -/
theorem file_validation_gate (f : FileDesc) (u : String) (s : AppState) :
    (rejectsFile f = true →
      (∃ msg, validateAndProcessFile f u = Except.error msg ∧ msg ≠ "") ∧
        uploaderStep s f u = s) ∧
    (rejectsFile f = false →
      validateAndProcessFile f u =
        Except.ok ⟨f, u,
          if strStartsWith f.type ("audio/") then MediaType.audio
          else MediaType.video⟩) := by
  unfold rejectsFile uploaderStep validateAndProcessFile
  by_cases ha : strStartsWith f.type ("audio/") = true <;>
    by_cases hv : strStartsWith f.type ("video/") = true <;>
      by_cases hs : f.size > 50 * 1024 * 1024 <;>
        simp [ha, hv, hs]

/-- Witness for C5: a text file is rejected with a message and leaves
the state unchanged, an audio file is accepted with the audio tag. -/
theorem file_validation_gate_witness :
    (∃ msg,
      validateAndProcessFile ⟨("notes.txt"), ("text/plain"), 5⟩ ("blob:x") =
        Except.error msg ∧ msg ≠ "") ∧
    uploaderStep sampleIdleState ⟨("notes.txt"), ("text/plain"), 5⟩ ("blob:x") =
      sampleIdleState ∧
    validateAndProcessFile ⟨("interview.mp3"), ("audio/mpeg"), 1000⟩ ("blob:demo") =
      Except.ok ⟨⟨("interview.mp3"), ("audio/mpeg"), 1000⟩, ("blob:demo"),
        if strStartsWith ("audio/mpeg") ("audio/") then MediaType.audio
        else MediaType.video⟩ :=
  ⟨((file_validation_gate ⟨("notes.txt"), ("text/plain"), 5⟩ ("blob:x")
      sampleIdleState).1 (by decide)).1,
   ((file_validation_gate ⟨("notes.txt"), ("text/plain"), 5⟩ ("blob:x")
      sampleIdleState).1 (by decide)).2,
   (file_validation_gate ⟨("interview.mp3"), ("audio/mpeg"), 1000⟩ ("blob:demo")
      sampleIdleState).2 (by decide)⟩

/-- Claim C6: performing reset from any application state yields the
state with no media file, idle status, empty transcript, no error, the
transcript tab active, and the chat panel state discarded. -/
theorem reset_clears_session (s : AppState) :
    appStep s AppEvent.reset =
      ⟨none, TranscriptionStatus.IDLE, "", none, Tab.transcript, none⟩ := by
  rfl

/-- Claim C3: in a session starting from the idle status, a transcribe
event whose remote call succeeds with text r drives the status exactly
through idle, processing, transcribing, completed, assigns the
transcript exactly once, namely to r, and the final state carries r with
the completed status and no error; moreover from any completed state no
event other than reset or a new file selection changes the transcript. -/
theorem transcription_success_lifecycle (s s2 : AppState) (e : AppEvent) (r : String)
    (h1 : s.status = TranscriptionStatus.IDLE)
    (h2 : s2.status = TranscriptionStatus.COMPLETED)
    (h3 : e.isReset = false) (h4 : e.isFileSelect = false) :
    s.status :: statusWrites (handleTranscribeActions (Except.ok r)) =
      [TranscriptionStatus.IDLE, TranscriptionStatus.PROCESSING_FILE,
       TranscriptionStatus.TRANSCRIBING, TranscriptionStatus.COMPLETED] ∧
    transcriptionWrites (handleTranscribeActions (Except.ok r)) = [r] ∧
    (runActions s (handleTranscribeActions (Except.ok r))).transcription = r ∧
    (runActions s (handleTranscribeActions (Except.ok r))).status =
      TranscriptionStatus.COMPLETED ∧
    (runActions s (handleTranscribeActions (Except.ok r))).error = none ∧
    (appStep s2 e).transcription = s2.transcription := by
  refine ⟨by rw [h1]; rfl, rfl, rfl, rfl, rfl, ?_⟩
  cases e with
  | fileSelect f => simp [AppEvent.isFileSelect] at h4
  | reset => simp [AppEvent.isReset] at h3
  | transcribe o =>
    simp only [appStep]
    rw [if_neg]
    rintro ⟨_, hst | hst⟩ <;> rw [h2] at hst <;> cases hst
  | setTab t =>
    simp only [appStep]
    rw [mountChat_transcription]
    rfl
  | chat ce =>
    simp only [appStep]
    cases s2.chat <;> rfl

/-- Witness for C3 at a freshly loaded session, a completed session and
a tab switch event. -/
theorem transcription_success_lifecycle_witness :
    sampleIdleState.status :: statusWrites (handleTranscribeActions (Except.ok ("T"))) =
      [TranscriptionStatus.IDLE, TranscriptionStatus.PROCESSING_FILE,
       TranscriptionStatus.TRANSCRIBING, TranscriptionStatus.COMPLETED] ∧
    transcriptionWrites (handleTranscribeActions (Except.ok ("T"))) = [("T")] ∧
    (runActions sampleIdleState (handleTranscribeActions (Except.ok ("T")))).transcription =
      ("T") ∧
    (runActions sampleIdleState (handleTranscribeActions (Except.ok ("T")))).status =
      TranscriptionStatus.COMPLETED ∧
    (runActions sampleIdleState (handleTranscribeActions (Except.ok ("T")))).error = none ∧
    (appStep sampleCompletedState (AppEvent.setTab Tab.assistant)).transcription =
      sampleCompletedState.transcription :=
  transcription_success_lifecycle sampleIdleState sampleCompletedState
    (AppEvent.setTab Tab.assistant) ("T") rfl rfl rfl rfl

/-- Claim C4: a transcribe event whose remote call throws writes the
statuses processing, transcribing, error, never assigns the transcript,
sets a nonempty visible error message, and in a session whose transcript
was empty it stays empty. -/
theorem transcription_failure_terminal (s : AppState) (m : String)
    (h1 : s.transcription = "") :
    statusWrites (handleTranscribeActions (Except.error m)) =
      [TranscriptionStatus.PROCESSING_FILE, TranscriptionStatus.TRANSCRIBING,
       TranscriptionStatus.ERROR] ∧
    transcriptionWrites (handleTranscribeActions (Except.error m)) = [] ∧
    (runActions s (handleTranscribeActions (Except.error m))).status =
      TranscriptionStatus.ERROR ∧
    (∃ msg, (runActions s (handleTranscribeActions (Except.error m))).error =
      some msg ∧ msg ≠ "") ∧
    (runActions s (handleTranscribeActions (Except.error m))).transcription = "" := by
  refine ⟨rfl, rfl, rfl, ⟨if m = "" then defaultErrorText else m, rfl, ?_⟩, h1⟩
  by_cases hm : m = "" <;> simp [hm, defaultErrorText]

/-- Witness for C4 at a freshly loaded session and the error text boom. -/
theorem transcription_failure_terminal_witness :
    statusWrites (handleTranscribeActions (Except.error ("boom"))) =
      [TranscriptionStatus.PROCESSING_FILE, TranscriptionStatus.TRANSCRIBING,
       TranscriptionStatus.ERROR] ∧
    transcriptionWrites (handleTranscribeActions (Except.error ("boom"))) = [] ∧
    (runActions sampleIdleState (handleTranscribeActions (Except.error ("boom")))).status =
      TranscriptionStatus.ERROR ∧
    (∃ msg,
      (runActions sampleIdleState (handleTranscribeActions (Except.error ("boom")))).error =
        some msg ∧ msg ≠ "") ∧
    (runActions sampleIdleState
      (handleTranscribeActions (Except.error ("boom")))).transcription = "" :=
  transcription_failure_terminal sampleIdleState ("boom") rfl

/-- Claim C7: submitting chat text that trims to nothing, or with no
chat session, or while a request is outstanding, is a no-op, and the
single-outstanding-request invariant is preserved by every event, so at
most one chat request is in flight at any time. -/
theorem chat_send_guard (st : ChatState) (e : ChatEvent) (text : String)
    (hg : strTrim text = "" ∨ st.chatSession = none ∨ st.isLoading = true)
    (hinv : chatInv st = true) :
    chatStep st (ChatEvent.send text) = st ∧
    chatInv (chatStep st e) = true ∧
    (chatStep st e).outstanding ≤ 1 := by
  have hguard : chatStep st (ChatEvent.send text) = st := by
    simp only [chatStep, handleSendStart]
    rw [if_pos]
    rcases hg with h | h | h <;> simp [h]
  have hv : st.outstanding = if st.isLoading then 1 else 0 := by
    simpa [chatInv, beq_iff_eq] using hinv
  have hnext : chatInv (chatStep st e) = true := by
    cases e with
    | init k t =>
      by_cases h1 : t = ""
      · simp [chatInv, chatStep, chatInit, h1, hv]
      · by_cases h2 : k = true <;> simp [chatInv, chatStep, chatInit, h1, h2, hv]
    | send t2 =>
      by_cases h1 : (decide (strTrim t2 = "") || st.chatSession.isNone || st.isLoading)
          = true
      · simp [chatInv, chatStep, handleSendStart, h1, hv]
      · have hl : st.isLoading = false := by
          simp only [Bool.or_eq_true, not_or, Bool.not_eq_true] at h1
          exact h1.2
        have h0 : st.outstanding = 0 := by simpa [hl] using hv
        simp [chatInv, chatStep, handleSendStart, h1, h0]
    | finish o =>
      by_cases h1 : st.isLoading = true
      · have h0 : st.outstanding = 1 := by simpa [h1] using hv
        cases o <;> simp [chatInv, chatStep, handleSendFinish, h1, h0]
      · have hl : st.isLoading = false := by simpa using h1
        simp [chatInv, chatStep, handleSendFinish, hl, hv]
    | setInput t2 => simp [chatInv, chatStep, hv]
  refine ⟨hguard, hnext, ?_⟩
  simp only [chatInv, beq_iff_eq] at hnext
  rw [hnext]
  split <;> omega

/-- Witness for C7 at an initialized chat state, an empty submission and
an input-edit event. -/
theorem chat_send_guard_witness :
    chatStep sampleChatState (ChatEvent.send ("")) = sampleChatState ∧
    chatInv (chatStep sampleChatState (ChatEvent.setInput ("q"))) = true ∧
    (chatStep sampleChatState (ChatEvent.setInput ("q"))).outstanding ≤ 1 :=
  chat_send_guard sampleChatState (ChatEvent.setInput ("q")) ("")
    (Or.inl (by decide)) (by decide)

/-- Claim C8: every chat event either leaves the message list unchanged,
appends exactly one message at the end, or, for initialization, replaces
the list with a single model-role message; and a guard-passing user
submission followed by the completion of its turn extends the list with
exactly the user message and one model message. -/
theorem chat_append_only (st st2 : ChatState) (e : ChatEvent) (t : String)
    (o : Except String String)
    (h1 : strTrim t ≠ "") (h2 : st2.chatSession.isNone = false)
    (h3 : st2.isLoading = false) :
    ((chatStep st e).messages = st.messages ∨
      (∃ m, (chatStep st e).messages = st.messages ++ [m]) ∨
      (∃ g, (chatStep st e).messages = [ChatMessage.mk Role.model g])) ∧
    (∃ mt, (chatStep (chatStep st2 (ChatEvent.send t)) (ChatEvent.finish o)).messages =
      st2.messages ++ [ChatMessage.mk Role.user t, ChatMessage.mk Role.model mt]) := by
  constructor
  · cases e with
    | init k tr =>
      simp only [chatStep, chatInit]
      split_ifs with ha hb
      · exact Or.inl rfl
      · exact Or.inr (Or.inr ⟨greetingText, rfl⟩)
      · exact Or.inr (Or.inr ⟨initErrorText, rfl⟩)
    | send tx =>
      simp only [chatStep, handleSendStart]
      split_ifs with ha
      · exact Or.inl rfl
      · exact Or.inr (Or.inl ⟨⟨Role.user, tx⟩, rfl⟩)
    | finish o2 =>
      simp only [chatStep, handleSendFinish]
      split_ifs with ha
      · cases o2 with
        | ok r =>
          exact Or.inr (Or.inl ⟨⟨Role.model, if r = "" then emptyResponseText else r⟩, rfl⟩)
        | error m => exact Or.inr (Or.inl ⟨⟨Role.model, chatErrorText⟩, rfl⟩)
      · exact Or.inl rfl
    | setInput tx => exact Or.inl rfl
  · have hguard : (decide (strTrim t = "") || st2.chatSession.isNone || st2.isLoading)
        = false := by
      simp [h1, h2, h3]
    cases o with
    | ok r =>
      refine ⟨if r = "" then emptyResponseText else r, ?_⟩
      simp [chatStep, handleSendStart, handleSendFinish, hguard]
    | error m =>
      refine ⟨chatErrorText, ?_⟩
      simp [chatStep, handleSendStart, handleSendFinish, hguard]

/-- Witness for C8 at an input-edit event and a completed turn. -/
theorem chat_append_only_witness :
    ((chatStep initialChatState (ChatEvent.setInput (""))).messages =
        initialChatState.messages ∨
      (∃ m, (chatStep initialChatState (ChatEvent.setInput (""))).messages =
        initialChatState.messages ++ [m]) ∨
      (∃ g, (chatStep initialChatState (ChatEvent.setInput (""))).messages =
        [ChatMessage.mk Role.model g])) ∧
    (∃ mt, (chatStep (chatStep sampleChatState (ChatEvent.send ("Hi")))
        (ChatEvent.finish (Except.ok ("Sure")))).messages =
      sampleChatState.messages ++
        [ChatMessage.mk Role.user ("Hi"), ChatMessage.mk Role.model mt]) :=
  chat_append_only initialChatState sampleChatState (ChatEvent.setInput ("")) ("Hi")
    (Except.ok ("Sure")) (by decide) (by decide) (by decide)

/-- Claim C9: when the remote chat call of a guard-passing turn throws,
the user message stays, exactly one model-role inline error message is
appended, the loading flag is cleared and the chat session is kept, so a
new turn can be submitted. -/
theorem chat_error_inline (st : ChatState) (t emsg : String)
    (h1 : strTrim t ≠ "") (h2 : st.chatSession.isNone = false)
    (h3 : st.isLoading = false) :
    (chatStep (chatStep st (ChatEvent.send t))
        (ChatEvent.finish (Except.error emsg))).messages =
      st.messages ++ [ChatMessage.mk Role.user t, ChatMessage.mk Role.model chatErrorText] ∧
    (chatStep (chatStep st (ChatEvent.send t))
        (ChatEvent.finish (Except.error emsg))).isLoading = false ∧
    (chatStep (chatStep st (ChatEvent.send t))
        (ChatEvent.finish (Except.error emsg))).chatSession = st.chatSession := by
  have hguard : (decide (strTrim t = "") || st.chatSession.isNone || st.isLoading)
      = false := by
    simp [h1, h2, h3]
  refine ⟨?_, ?_, ?_⟩ <;>
    simp [chatStep, handleSendStart, handleSendFinish, hguard]

/-- Witness for C9 at an initialized chat state and a failing turn. -/
theorem chat_error_inline_witness :
    (chatStep (chatStep sampleChatState (ChatEvent.send ("Hi")))
        (ChatEvent.finish (Except.error ("boom")))).messages =
      sampleChatState.messages ++
        [ChatMessage.mk Role.user ("Hi"), ChatMessage.mk Role.model chatErrorText] ∧
    (chatStep (chatStep sampleChatState (ChatEvent.send ("Hi")))
        (ChatEvent.finish (Except.error ("boom")))).isLoading = false ∧
    (chatStep (chatStep sampleChatState (ChatEvent.send ("Hi")))
        (ChatEvent.finish (Except.error ("boom")))).chatSession =
      sampleChatState.chatSession :=
  chat_error_inline sampleChatState ("Hi") ("boom") (by decide) (by decide) (by decide)

/-- Case-insensitive equality unfolded to equality of lowered lists. -/
theorem lowerEq_iff {a b : Str} :
    lowerEq a b = true ↔ a.map Char.toLower = b.map Char.toLower := by
  simp [lowerEq]

/-- Case-insensitively equal strings have equal length. -/
theorem lowerEq_length {a b : Str} (h : lowerEq a b = true) :
    a.length = b.length := by
  rw [lowerEq_iff] at h
  simpa using congrArg List.length h

/-- A position returned by findCI leaves room for the whole query. -/
theorem findCI_le {q s : Str} {i : Nat} (h : findCI q s = some i) :
    i + q.length ≤ s.length := by
  induction s generalizing i with
  | nil =>
    simp only [findCI] at h
    split at h
    · rename_i hc
      cases h
      have hlen := lowerEq_length hc
      simp only [List.length_take, List.length_nil, List.length_cons] at hlen ⊢
      omega
    · cases h
  | cons c rest ih =>
    simp only [findCI] at h
    split at h
    · rename_i hc
      cases h
      have hlen := lowerEq_length hc
      simp only [List.length_take, List.length_nil, List.length_cons] at hlen ⊢
      omega
    · cases hr : findCI q rest with
      | none => rw [hr] at h; cases h
      | some j =>
        rw [hr] at h
        simp only [Option.map_some'] at h
        cases h
        have := ih hr
        simp only [List.length_cons]
        omega

/-- findCI really points at a case-insensitive occurrence. -/
theorem findCI_ciAt {q s : Str} {i : Nat} (h : findCI q s = some i) :
    ciAt q s i = true := by
  induction s generalizing i with
  | nil =>
    simp only [findCI] at h
    split at h
    · rename_i hc
      cases h
      simpa [ciAt] using hc
    · cases h
  | cons c rest ih =>
    simp only [findCI] at h
    split at h
    · rename_i hc
      cases h
      simpa [ciAt] using hc
    · cases hr : findCI q rest with
      | none => rw [hr] at h; cases h
      | some j =>
        rw [hr] at h
        simp only [Option.map_some'] at h
        cases h
        simpa [ciAt, List.drop_succ_cons] using ih hr

/-- findCI returns the first occurrence: nothing matches earlier. -/
theorem findCI_min {q s : Str} {i : Nat} (h : findCI q s = some i) :
    ∀ j, j < i → ciAt q s j = false := by
  induction s generalizing i with
  | nil =>
    intro j hj
    simp only [findCI] at h
    split at h
    · cases h
      exact absurd hj (Nat.not_lt_zero j)
    · cases h
  | cons c rest ih =>
    intro j hj
    simp only [findCI] at h
    split at h
    · cases h
      exact absurd hj (Nat.not_lt_zero j)
    · rename_i hc
      cases hr : findCI q rest with
      | none => rw [hr] at h; cases h
      | some k =>
        rw [hr] at h
        simp only [Option.map_some'] at h
        cases h
        cases j with
        | zero =>
          simp only [Bool.not_eq_true] at hc
          simpa [ciAt] using hc
        | succ j0 =>
          simpa [ciAt, List.drop_succ_cons] using ih hr j0 (by omega)

/-- When findCI fails there is no occurrence at any position. -/
theorem findCI_none_ciAt {q s : Str} (h : findCI q s = none) :
    ∀ j, ciAt q s j = false := by
  induction s with
  | nil =>
    intro j
    simp only [findCI] at h
    split at h
    · cases h
    · rename_i hc
      simp only [Bool.not_eq_true] at hc
      simpa [ciAt] using hc
  | cons c rest ih =>
    intro j
    simp only [findCI] at h
    split at h
    · cases h
    · rename_i hc
      cases hr : findCI q rest with
      | some k => rw [hr] at h; cases h
      | none =>
        cases j with
        | zero =>
          simp only [Bool.not_eq_true] at hc
          simpa [ciAt] using hc
        | succ j0 =>
          simpa [ciAt, List.drop_succ_cons] using ih hr j0

/-- A string with no occurrence at any position has no occurrence. -/
theorem hasOccCI_false_of_all {q s : Str} (h : ∀ j, ciAt q s j = false) :
    hasOccCI q s = false := by
  unfold hasOccCI
  rw [List.any_eq_false]
  intro x _
  simp [h x]

/-- A string case-insensitively equal to the query contains it. -/
theorem lowerEq_hasOccCI {q p : Str} (h : lowerEq p q = true) :
    hasOccCI q p = true := by
  unfold hasOccCI
  rw [List.any_eq_true]
  refine ⟨0, by simp, ?_⟩
  have hl := lowerEq_length h
  simpa [ciAt, List.take_of_length_le (by omega : p.length ≤ q.length)] using h

/-- The text before the first occurrence contains no occurrence of a
nonempty query. -/
theorem hasOccCI_take_of_findCI {q s : Str} {i : Nat} (hq : q ≠ [])
    (h : findCI q s = some i) : hasOccCI q (s.take i) = false := by
  have hq1 : 1 ≤ q.length := List.length_pos.mpr hq
  apply hasOccCI_false_of_all
  intro j
  by_contra hj
  rw [Bool.not_eq_false] at hj
  simp only [ciAt, List.drop_take, List.take_take] at hj
  have hlen := lowerEq_length hj
  simp only [List.length_take, List.length_drop] at hlen
  have hmin : min q.length (i - j) = q.length := by omega
  rw [hmin] at hj
  have hcA : ciAt q s j = true := hj
  have hfalse := findCI_min h j (by omega)
  rw [hcA] at hfalse
  cases hfalse

/-- Splitting and flattening recovers the original string. -/
theorem splitKeepAux_flatten (fuel : Nat) (q : Str) :
    ∀ s : Str, (splitKeepAux fuel q s).flatten = s := by
  induction fuel with
  | zero => intro s; simp [splitKeepAux]
  | succ fuel ih =>
    intro s
    simp only [splitKeepAux]
    cases hr : findCI q s with
    | none => simp
    | some i =>
      simp only [List.flatten_cons, ih]
      rw [List.take_append_drop, List.take_append_drop]

/-- Every part produced by the fuelled splitter with enough fuel either
equals the query case-insensitively or contains no occurrence of it. -/
theorem splitKeepAux_classify (q : Str) (hq : q ≠ []) :
    ∀ fuel (s : Str), s.length < fuel → ∀ p ∈ splitKeepAux fuel q s,
      lowerEq p q = true ∨ hasOccCI q p = false := by
  intro fuel
  induction fuel with
  | zero => intro s hs; exact absurd hs (Nat.not_lt_zero _)
  | succ fuel ih =>
    intro s hs p hp
    simp only [splitKeepAux] at hp
    cases hr : findCI q s with
    | none =>
      rw [hr] at hp
      simp only [List.mem_singleton] at hp
      subst hp
      exact Or.inr (hasOccCI_false_of_all (findCI_none_ciAt hr))
    | some i =>
      rw [hr] at hp
      simp only [List.mem_cons] at hp
      rcases hp with hp | hp | hp
      · subst hp
        exact Or.inr (hasOccCI_take_of_findCI hq hr)
      · subst hp
        exact Or.inl (by simpa [ciAt] using findCI_ciAt hr)
      · have hle := findCI_le hr
        have hq1 : 1 ≤ q.length := List.length_pos.mpr hq
        refine ih ((s.drop i).drop q.length) ?_ p hp
        simp only [List.length_drop]
        omega

/-- Splitting on a query and flattening recovers the original string. -/
theorem splitKeep_flatten (q s : Str) : (splitKeep q s).flatten = s := by
  unfold splitKeep
  split
  · simp
  · exact splitKeepAux_flatten _ q s

/-- Every part produced by splitKeep on a nonempty query either equals
the query case-insensitively or contains no occurrence of it. -/
theorem splitKeep_classify (q s : Str) (hq : q ≠ []) :
    ∀ p ∈ splitKeep q s, lowerEq p q = true ∨ hasOccCI q p = false := by
  unfold splitKeep
  rw [if_neg (by simpa [List.isEmpty_iff] using hq)]
  exact splitKeepAux_classify q hq (s.length + 1) s (Nat.lt_succ_self _)

/-- The marked parts keep exactly the split texts, in order. -/
theorem markParts_texts (q : Str) :
    ∀ (l : List Str) (c : Nat), (markParts q l c).1.map Part.text = l := by
  intro l
  induction l with
  | nil => intro c; rfl
  | cons p rest ih =>
    intro c
    simp only [markParts]
    by_cases hp : lowerEq p q = true
    · simp [hp, ih]
    · simp [hp, ih]

/-- The final counter adds the number of query-equal parts. -/
theorem markParts_snd (q : Str) :
    ∀ (l : List Str) (c : Nat),
      (markParts q l c).2 = c + l.countP (fun p => lowerEq p q) := by
  intro l
  induction l with
  | nil => intro c; simp [markParts]
  | cons p rest ih =>
    intro c
    simp only [markParts, List.countP_cons]
    by_cases hp : lowerEq p q = true
    · simp [hp, ih]
      omega
    · simp [hp, ih]

/-- The number of marked parts equals the number of query-equal parts. -/
theorem markParts_countMarked (q : Str) :
    ∀ (l : List Str) (c : Nat),
      countMarked (markParts q l c).1 = l.countP (fun p => lowerEq p q) := by
  intro l
  induction l with
  | nil => intro c; rfl
  | cons p rest ih =>
    intro c
    simp only [markParts, countMarked, List.countP_cons]
    by_cases hp : lowerEq p q = true
    · have hih := ih (c + 1)
      simp only [countMarked] at hih
      simp [hp, hih]
    · have hih := ih c
      simp only [countMarked] at hih
      simp [hp, hih]

/-- The marked indices are consecutive, starting at the counter. -/
theorem markParts_indices (q : Str) :
    ∀ (l : List Str) (c : Nat),
      paraIndices (markParts q l c).1 =
        (List.range' c (l.countP (fun p => lowerEq p q))).map Int.ofNat := by
  intro l
  induction l with
  | nil => intro c; rfl
  | cons p rest ih =>
    intro c
    simp only [markParts, List.countP_cons]
    by_cases hp : lowerEq p q = true
    · simp [paraIndices, hp, List.range'_succ]
      have hih := ih (c + 1)
      simp only [paraIndices] at hih
      exact hih
    · simp [paraIndices, hp]
      have hih := ih c
      simp only [paraIndices] at hih
      exact hih

/-- A part marked as a match is case-insensitively the query, and an
unmarked one is not. -/
theorem markParts_mem (q : Str) :
    ∀ (l : List Str) (c : Nat), ∀ pt ∈ (markParts q l c).1,
      pt.text ∈ l ∧ (pt.isMatch = lowerEq pt.text q) := by
  intro l
  induction l with
  | nil => intro c pt hpt; cases hpt
  | cons p rest ih =>
    intro c pt hpt
    simp only [markParts] at hpt
    by_cases hp : lowerEq p q = true
    · rw [if_pos hp] at hpt
      simp only [List.mem_cons] at hpt
      rcases hpt with hpt | hpt
      · subst hpt
        exact ⟨List.mem_cons_self _ _, by simp [hp]⟩
      · obtain ⟨h1, h2⟩ := ih (c + 1) pt hpt
        exact ⟨List.mem_cons_of_mem _ h1, h2⟩
    · rw [if_neg hp] at hpt
      simp only [List.mem_cons] at hpt
      rcases hpt with hpt | hpt
      · subst hpt
        simp only [Bool.not_eq_true] at hp
        exact ⟨List.mem_cons_self _ _, by simp [hp]⟩
      · obtain ⟨h1, h2⟩ := ih c pt hpt
        exact ⟨List.mem_cons_of_mem _ h1, h2⟩

/-- The newline split never produces an empty paragraph list. -/
theorem splitNL_ne_nil (s : Str) : splitNL s ≠ [] := by
  cases s with
  | nil => simp [splitNL]
  | cons c rest =>
    simp only [splitNL]
    split
    · simp
    · cases hr : splitNL rest <;> simp [hr]

/-- Joining the newline split recovers the original string. -/
theorem joinNL_splitNL (s : Str) : joinNL (splitNL s) = s := by
  induction s with
  | nil => rfl
  | cons c rest ih =>
    simp only [splitNL]
    by_cases hc : c = '\n'
    · rw [if_pos hc]
      cases hr : splitNL rest with
      | nil => exact absurd hr (splitNL_ne_nil rest)
      | cons h t =>
        rw [hr] at ih
        subst hc
        cases t with
        | nil => simpa [joinNL] using ih
        | cons t0 t1 => simpa [joinNL] using ih
    · rw [if_neg hc]
      cases hr : splitNL rest with
      | nil => exact absurd hr (splitNL_ne_nil rest)
      | cons h t =>
        rw [hr] at ih
        cases t with
        | nil =>
          simp only [joinNL] at ih ⊢
          rw [ih]
        | cons t0 t1 =>
          simp only [joinNL] at ih ⊢
          rw [List.cons_append, ih]

/-- A processed paragraph keeps its original text. -/
theorem processParagraph_text (q p : Str) (c : Nat) :
    (processParagraph q p c).1.text = p := by
  unfold processParagraph
  split <;> rfl

/-- Processing one paragraph adds its match count to the counter. -/
theorem processParagraph_snd (q p : Str) (c : Nat) :
    (processParagraph q p c).2 = c + paraCount q p := by
  unfold processParagraph paraCount
  split
  · simp
  · simp [markParts_snd]

/-- The marked parts of one paragraph equal its match count. -/
theorem processParagraph_countMarked (q p : Str) (c : Nat) :
    countMarked (processParagraph q p c).1.parts = paraCount q p := by
  unfold processParagraph paraCount
  split
  · simp [countMarked]
  · simp [markParts_countMarked]

/-- The match indices of one paragraph are consecutive from the counter. -/
theorem processParagraph_indices (q p : Str) (c : Nat) :
    paraIndices (processParagraph q p c).1.parts =
      (List.range' c (paraCount q p)).map Int.ofNat := by
  unfold processParagraph paraCount
  split
  · simp [paraIndices]
  · simp [markParts_indices]

/-- The parts of one processed paragraph flatten to the paragraph. -/
theorem processParagraph_flatten (q p : Str) (c : Nat) :
    ((processParagraph q p c).1.parts.map Part.text).flatten = p := by
  unfold processParagraph
  split
  · simp
  · simp [markParts_texts, splitKeep_flatten]

/-- Marked parts of a paragraph equal the query case-insensitively and
unmarked parts of a scanned paragraph contain no occurrence of it. -/
theorem processParagraph_parts (q p : Str) (c : Nat) (hq : q ≠ []) :
    ∀ pt ∈ (processParagraph q p c).1.parts,
      (pt.isMatch = true → lowerEq pt.text q = true) ∧
      (pt.isMatch = false →
        (trimStr p).isEmpty = true ∨ hasOccCI q pt.text = false) := by
  unfold processParagraph
  split
  · rename_i hws
    intro pt hpt
    simp only [List.mem_singleton] at hpt
    subst hpt
    refine ⟨fun hmm => ?_, fun _ => Or.inl hws⟩
    simp at hmm
  · intro pt hpt
    obtain ⟨hmem, hiff⟩ := markParts_mem q (splitKeep q p) c pt hpt
    constructor
    · intro hm
      rw [hm] at hiff
      exact hiff.symm
    · intro hm
      right
      rcases splitKeep_classify q p hq pt.text hmem with hcl | hcl
      · rw [hm, hcl] at hiff
        cases hiff
      · exact hcl

/-- Processing keeps the paragraph texts, in order. -/
theorem processAll_texts (q : Str) :
    ∀ (ps : List Str) (c : Nat), (processAll q ps c).1.map Para.text = ps := by
  intro ps
  induction ps with
  | nil => intro c; rfl
  | cons p rest ih =>
    intro c
    simp only [processAll, List.map_cons]
    rw [processParagraph_text, ih]

/-- The final counter adds all paragraph match counts. -/
theorem processAll_snd (q : Str) :
    ∀ (ps : List Str) (c : Nat),
      (processAll q ps c).2 = c + (ps.map (fun p => paraCount q p)).sum := by
  intro ps
  induction ps with
  | nil => intro c; simp [processAll]
  | cons p rest ih =>
    intro c
    simp only [processAll, List.map_cons, List.sum_cons]
    rw [ih, processParagraph_snd]
    omega

/-- The marked parts over all paragraphs sum the paragraph counts. -/
theorem processAll_marked (q : Str) :
    ∀ (ps : List Str) (c : Nat),
      allMarked (processAll q ps c).1 = (ps.map (fun p => paraCount q p)).sum := by
  intro ps
  induction ps with
  | nil => intro c; rfl
  | cons p rest ih =>
    intro c
    simp only [processAll, allMarked, List.map_cons, List.sum_cons]
    have hih := ih ((processParagraph q p c).2)
    simp only [allMarked] at hih
    rw [hih, processParagraph_countMarked]

/-- An interval of consecutive numbers splits at any point. -/
theorem range'_split (c k1 k2 : Nat) :
    List.range' c (k1 + k2) = List.range' c k1 ++ List.range' (c + k1) k2 := by
  rw [List.range'_append_1, Nat.add_comm]

/-- The match indices over all paragraphs are consecutive from the
counter, in scan order. -/
theorem processAll_indices (q : Str) :
    ∀ (ps : List Str) (c : Nat),
      allIndices (processAll q ps c).1 =
        (List.range' c ((ps.map (fun p => paraCount q p)).sum)).map Int.ofNat := by
  intro ps
  induction ps with
  | nil => intro c; rfl
  | cons p rest ih =>
    intro c
    simp only [processAll, allIndices, List.map_cons, List.flatten_cons, List.sum_cons]
    rw [processParagraph_indices]
    have hih := ih ((processParagraph q p c).2)
    simp only [allIndices] at hih
    rw [hih, processParagraph_snd,
      range'_split c (paraCount q p) ((rest.map (fun p => paraCount q p)).sum),
      List.map_append]

/-- The part classification lifted to the whole paragraph list. -/
theorem processAll_parts (q : Str) (hq : q ≠ []) :
    ∀ (ps : List Str) (c : Nat), ∀ pa ∈ (processAll q ps c).1, ∀ pt ∈ pa.parts,
      (pt.isMatch = true → lowerEq pt.text q = true) ∧
      (pt.isMatch = false →
        (trimStr pa.text).isEmpty = true ∨ hasOccCI q pt.text = false) := by
  intro ps
  induction ps with
  | nil => intro c pa hpa; cases hpa
  | cons p rest ih =>
    intro c pa hpa
    simp only [processAll, List.mem_cons] at hpa
    rcases hpa with hpa | hpa
    · subst hpa
      intro pt hpt
      rw [processParagraph_text]
      exact processParagraph_parts q p c hq pt hpt
    · exact ih ((processParagraph q p c).2) pa hpa

/-- The flattening identity lifted to the whole paragraph list. -/
theorem processAll_flatten (q : Str) :
    ∀ (ps : List Str) (c : Nat), ∀ pa ∈ (processAll q ps c).1,
      (pa.parts.map Part.text).flatten = pa.text := by
  intro ps
  induction ps with
  | nil => intro c pa hpa; cases hpa
  | cons p rest ih =>
    intro c pa hpa
    simp only [processAll, List.mem_cons] at hpa
    rcases hpa with hpa | hpa
    · subst hpa
      rw [processParagraph_text, processParagraph_flatten]
    · exact ih ((processParagraph q p c).2) pa hpa

/-- The processed paragraphs keep the newline split texts, in order. -/
theorem processedText_texts (text q : Str) :
    (processedText text q).1.map Para.text = splitNL text := by
  unfold processedText
  split
  · simp only [List.map_map]
    have : (Para.text ∘ fun p : Str =>
        Para.mk p [Part.mk p false (-1)]) = fun p : Str => p := rfl
    rw [this]
    exact List.map_id _
  · exact processAll_texts q (splitNL text) 0

/-- Every processed paragraph flattens back to its own text. -/
theorem processedText_flatten (text q : Str) :
    ∀ pa ∈ (processedText text q).1, (pa.parts.map Part.text).flatten = pa.text := by
  unfold processedText
  split
  · intro pa hpa
    simp only [List.mem_map] at hpa
    obtain ⟨p, hp, rfl⟩ := hpa
    simp
  · exact processAll_flatten q (splitNL text) 0

/-- Claim C10: for every transcript and every query, empty included, the
parts of each processed paragraph concatenate exactly to that paragraph,
and joining the paragraph texts with newlines restores the transcript:
highlighting never inserts, drops or alters characters. -/
theorem search_preserves_text (text q : Str) :
    ((processedParagraphs text q).all
      (fun pa => decide ((pa.parts.map Part.text).flatten = pa.text))) = true ∧
    joinNL ((processedParagraphs text q).map Para.text) = text := by
  constructor
  · rw [List.all_eq_true]
    intro pa hpa
    rw [decide_eq_true_eq]
    exact processedText_flatten text q pa hpa
  · unfold processedParagraphs
    rw [processedText_texts, joinNL_splitNL]

/-- Claim C1, amended: for a nonempty query the computation marks as
matches exactly the parts produced by the left-to-right non-overlapping
case-insensitive scan of each paragraph containing a non-whitespace
character: totalMatches is the number of marked parts, the marked parts
carry the distinct indices zero to totalMatches minus one in scan order,
every marked part equals the query case-insensitively, and an unmarked
part of a scanned paragraph contains no occurrence of the query. -/
theorem search_marks_scan_occurrences (text q : Str) (hq : q ≠ []) :
    totalMatches text q = allMarked (processedParagraphs text q) ∧
    allIndices (processedParagraphs text q) =
      (List.range (totalMatches text q)).map Int.ofNat ∧
    ((processedParagraphs text q).all (fun pa =>
      pa.parts.all (fun pt =>
        ((!pt.isMatch) || lowerEq pt.text q) &&
        (pt.isMatch || (trimStr pa.text).isEmpty || !(hasOccCI q pt.text))))) = true := by
  have hne : ¬ (q.isEmpty = true) := by
    simp only [List.isEmpty_iff]
    exact hq
  have h1 : processedText text q = processAll q (splitNL text) 0 := by
    unfold processedText
    rw [if_neg hne]
  refine ⟨?_, ?_, ?_⟩
  · show (processedText text q).2 = allMarked (processedText text q).1
    rw [h1, processAll_snd, processAll_marked]
    simp
  · show allIndices (processedText text q).1 =
      (List.range (processedText text q).2).map Int.ofNat
    rw [h1, processAll_indices, processAll_snd, List.range_eq_range']
    simp
  · rw [List.all_eq_true]
    intro pa hpa
    rw [List.all_eq_true]
    intro pt hpt
    have hpa2 : pa ∈ (processAll q (splitNL text) 0).1 := by
      rw [← h1]
      exact hpa
    have h := processAll_parts q hq (splitNL text) 0 pa hpa2 pt hpt
    cases hm : pt.isMatch with
    | false =>
      rcases h.2 hm with hws | hocc
      · simp [hm, hws]
      · simp [hm, hocc]
    | true =>
      simp [hm, h.1 hm]

/-- Witness for the amended C1 at the transcript hi HI and the query hi:
the scan marks both occurrences with indices zero and one. -/
theorem search_marks_scan_occurrences_witness :
    totalMatches ['h', 'i', ' ', 'H', 'I'] ['h', 'i'] =
      allMarked (processedParagraphs ['h', 'i', ' ', 'H', 'I'] ['h', 'i']) ∧
    allIndices (processedParagraphs ['h', 'i', ' ', 'H', 'I'] ['h', 'i']) =
      (List.range (totalMatches ['h', 'i', ' ', 'H', 'I'] ['h', 'i'])).map Int.ofNat ∧
    ((processedParagraphs ['h', 'i', ' ', 'H', 'I'] ['h', 'i']).all (fun pa =>
      pa.parts.all (fun pt =>
        ((!pt.isMatch) || lowerEq pt.text ['h', 'i']) &&
        (pt.isMatch || (trimStr pa.text).isEmpty ||
          !(hasOccCI ['h', 'i'] pt.text))))) = true :=
  search_marks_scan_occurrences ['h', 'i', ' ', 'H', 'I'] ['h', 'i'] (by decide)

/-- Counterexample to C1 as literally stated: for the transcript made of
one space and the query made of one space there is one case-insensitive
occurrence of the query in the text, yet no part is marked and
totalMatches is zero, because a paragraph that trims to nothing is never
scanned. -/
theorem search_whitespace_counterexample :
    countOccCI [' '] [' '] = 1 ∧ totalMatches [' '] [' '] = 0 ∧
    allMarked (processedParagraphs [' '] [' ']) = 0 := by
  decide

end VeritasScribe
